import Mathlib

/-!
# Verification of `base64_type` (IronCoreLabs)

Shallow embedding of `src/lib.rs`: two newtype wrappers `Base64` and
`UrlBase64` around a byte buffer, with base64 encode/decode through the
`base64` crate's `GeneralPurpose` engines `STANDARD_INDIFFERENT_PAD` and
`URL_SAFE_INDIFFERENT_PAD` (canonical padding on encode,
`DecodePaddingMode::Indifferent` on decode, trailing-bits not allowed).

Bytes are modelled as `Nat` (with explicit `< 256` bounds where they
matter), byte buffers as `List Nat`, and strings as `List Char`.
-/

namespace B64Spec

/-- A base64 alphabet. The standard and URL-safe alphabets share symbols
0–61 (`A`–`Z`, `a`–`z`, `0`–`9`) and differ only in symbols 62 and 63.
Models `alphabet::STANDARD` / `alphabet::URL_SAFE` of the `base64` crate. -/
structure Alpha where
  c62 : Char
  c63 : Char
deriving DecidableEq, Repr

/-- `alphabet::STANDARD`: symbols 62, 63 are `+`, `/`. -/
def stdAlpha : Alpha := ⟨'+', '/'⟩

/-- `alphabet::URL_SAFE`: symbols 62, 63 are `-`, `_`. -/
def urlAlpha : Alpha := ⟨'-', '_'⟩

/-- Encode table of the `base64` crate's alphabet: 6-bit value to char. -/
def encTable (a : Alpha) (n : Nat) : Char :=
  if n < 26 then Char.ofNat (65 + n)
  else if n < 52 then Char.ofNat (97 + (n - 26))
  else if n < 62 then Char.ofNat (48 + (n - 52))
  else if n = 62 then a.c62
  else a.c63

/-- Decode table of the `base64` crate's alphabet: char back to 6-bit
value, `none` for a char outside the alphabet (including `=`). -/
def decTable (a : Alpha) (c : Char) : Option Nat :=
  if 'A' ≤ c ∧ c ≤ 'Z' then some (c.toNat - 65)
  else if 'a' ≤ c ∧ c ≤ 'z' then some (c.toNat - 97 + 26)
  else if '0' ≤ c ∧ c ≤ '9' then some (c.toNat - 48 + 52)
  else if c = a.c62 then some 62
  else if c = a.c63 then some 63
  else none

/-- Bytes to 6-bit symbols, as the `base64` crate's encoder emits them:
each 3-byte group becomes 4 symbols; a trailing 1- or 2-byte group
becomes 2 or 3 symbols with the leftover low bits zero. -/
def toSextets : List Nat → List Nat
  | [] => []
  | [b1] => [b1 / 4, b1 % 4 * 16]
  | [b1, b2] => [b1 / 4, b1 % 4 * 16 + b2 / 16, b2 % 16 * 4]
  | b1 :: b2 :: b3 :: rest =>
      b1 / 4 :: (b1 % 4 * 16 + b2 / 16) :: (b2 % 16 * 4 + b3 / 64) :: b3 % 64 ::
        toSextets rest

/-- Number of trailing `=` pad chars the canonical (PAD) encoding appends
for a byte buffer of length `n`. -/
def padLenFor (n : Nat) : Nat :=
  match n % 3 with
  | 1 => 2
  | 2 => 1
  | _ => 0

/-- `GeneralPurpose::encode` with the PAD config: the alphabet image of
the 6-bit symbols followed by canonical `=` padding. -/
def encodeB64 (a : Alpha) (b : List Nat) : List Char :=
  (toSextets b).map (encTable a) ++ List.replicate (padLenFor b.length) '='

/-- Decode every char through the alphabet's decode table; `none` as soon
as one char is outside the alphabet (the engine's `InvalidByte`). -/
def decodeSyms (a : Alpha) : List Char → Option (List Nat)
  | [] => some []
  | c :: rest =>
    match decTable a c, decodeSyms a rest with
    | some v, some vs => some (v :: vs)
    | _, _ => none

/-- Decode errors of the `base64` crate (variants collapsed to the cases
this engine configuration can produce). -/
inductive DecodeError
  /-- A char outside the alphabet, or a pad char in a non-trailing
  position / where no pad may start. -/
  | invalidByte
  /-- A lone trailing symbol: symbol count ≡ 1 (mod 4) after pad strip. -/
  | invalidLength
  /-- Non-zero leftover low bits in the final symbol
  (`decode_allow_trailing_bits` is false in the PAD config). -/
  | invalidLastSymbol
deriving DecidableEq, Repr

/-- Reassemble bytes from 6-bit symbols (pad already stripped): full
4-symbol groups give 3 bytes; a trailing group of 2 or 3 symbols gives 1
or 2 bytes provided the leftover low bits of its last symbol are zero; a
trailing single symbol is `InvalidLength`. -/
def decodeBody : List Nat → Except DecodeError (List Nat)
  | [] => .ok []
  | [_] => .error .invalidLength
  | [s1, s2] =>
    if s2 % 16 = 0 then .ok [s1 * 4 + s2 / 16] else .error .invalidLastSymbol
  | [s1, s2, s3] =>
    if s3 % 4 = 0 then .ok [s1 * 4 + s2 / 16, s2 % 16 * 16 + s3 / 4]
    else .error .invalidLastSymbol
  | s1 :: s2 :: s3 :: s4 :: rest =>
    match decodeBody rest with
    | .ok tl => .ok ((s1 * 4 + s2 / 16) :: (s2 % 16 * 16 + s3 / 4) :: (s3 % 4 * 64 + s4) :: tl)
    | .error e => .error e

/-- Number of trailing `=` chars of the input. -/
def padCount (s : List Char) : Nat :=
  (s.reverse.takeWhile (fun c => c == '=')).length

/-- The input with its trailing run of `=` chars removed. -/
def stripPad (s : List Char) : List Char :=
  (s.reverse.dropWhile (fun c => c == '=')).reverse

/-- `GeneralPurpose::decode` with `DecodePaddingMode::Indifferent`:
trailing `=` padding is stripped and not checked for canonical length,
but each pad char must sit at an index `≥ 2 (mod 4)` (a pad may never
start a 4-char group or follow a single symbol); every remaining char
must be in the alphabet; the remaining symbols must form a well-formed
grouping (`decodeBody`). -/
def decodeB64 (a : Alpha) (s : List Char) : Except DecodeError (List Nat) :=
  match decodeSyms a (stripPad s) with
  | none => .error .invalidByte
  | some sextets =>
    if padCount s = 0 ∨ ((stripPad s).length % 4 = 2 ∧ padCount s ≤ 2) ∨
        ((stripPad s).length % 4 = 3 ∧ padCount s = 1) then
      decodeBody sextets
    else .error .invalidByte

/-- `true` exactly on `Except.error`. -/
def isError {ε α : Type} : Except ε α → Bool
  | .error _ => true
  | .ok _ => false

/-- `pub struct Base64(pub Vec<u8>)` — the standard-alphabet wrapper. -/
structure Base64 where
  bytes : List Nat
deriving DecidableEq, Repr

/-- `pub struct UrlBase64(pub Vec<u8>)` — the URL-safe wrapper. -/
structure UrlBase64 where
  bytes : List Nat
deriving DecidableEq, Repr

/-- Traits in `#[derive(...)]` on `Base64` (line 30 of `lib.rs`). -/
def Base64.derivedTraits : List String :=
  ["Debug", "Clone", "PartialEq", "Eq", "Hash"]

/-- Traits in `#[derive(...)]` on `UrlBase64` (line 133 of `lib.rs`). -/
def UrlBase64.derivedTraits : List String :=
  ["Debug", "PartialEq", "Eq", "Default"]

/-- The equality `derive(PartialEq)` generates: field-wise, i.e. on the
wrapped byte buffer. -/
def Base64.beq (x y : Base64) : Bool := x.bytes == y.bytes

/-- The clone `derive(Clone)` generates: clone the wrapped buffer. -/
def Base64.clone (x : Base64) : Base64 := ⟨x.bytes⟩

/-- The data `derive(Hash)` feeds to the hasher: `Vec<u8>`'s `Hash`
writes the length then the elements. Any hasher is a function of this. -/
def Base64.hashFeed (x : Base64) : List Nat := x.bytes.length :: x.bytes

/-- The equality `derive(PartialEq)` generates for `UrlBase64`. -/
def UrlBase64.beq (x y : UrlBase64) : Bool := x.bytes == y.bytes

/-- `derive(Default)` on `UrlBase64`: `Vec::default()` is empty. -/
def UrlBase64.default : UrlBase64 := ⟨[]⟩

/-- `impl Display for Base64`: `STANDARD_INDIFFERENT_PAD.encode(&self.0)`. -/
def Base64.toDisplayString (v : Base64) : List Char :=
  encodeB64 stdAlpha v.bytes

/-- `impl FromStr for Base64`: `STANDARD_INDIFFERENT_PAD.decode(s).map(Base64)`. -/
def Base64.fromStr (s : List Char) : Except DecodeError Base64 :=
  (decodeB64 stdAlpha s).map Base64.mk

/-- `impl Serialize for Base64` (via `base64_serde_type!`): serializes as
the scalar string `STANDARD_INDIFFERENT_PAD.encode(&self.0)`. -/
def Base64.serialize (v : Base64) : List Char :=
  encodeB64 stdAlpha v.bytes

/-- `impl Deserialize for Base64` (via `base64_serde_type!`): expects a
scalar string and decodes it; a decode failure surfaces as a data error. -/
def Base64.deserialize (s : List Char) : Except DecodeError Base64 :=
  (decodeB64 stdAlpha s).map Base64.mk

/-- `impl Serialize for UrlBase64`: the URL-safe engine's encoding. -/
def UrlBase64.serialize (v : UrlBase64) : List Char :=
  encodeB64 urlAlpha v.bytes

/-- `impl Deserialize for UrlBase64`: the URL-safe engine's decoding. -/
def UrlBase64.deserialize (s : List Char) : Except DecodeError UrlBase64 :=
  (decodeB64 urlAlpha s).map UrlBase64.mk

/-- `impl From<UrlBase64> for Base64`: `Base64(value.0)` — a raw byte
move, never re-encoded, no failure mode. -/
def Base64.fromUrlBase64 (u : UrlBase64) : Base64 := ⟨u.bytes⟩

/-- `impl From<Base64> for UrlBase64`: `UrlBase64(value.0)`. -/
def UrlBase64.fromBase64 (v : Base64) : UrlBase64 := ⟨v.bytes⟩

/-- The (fixed) error string of `TryFrom<Base64> for [u8; 32]`. -/
def lengthErrMsg : String := "Base64 was not 32 bytes of data."

/-- `impl TryFrom<Base64> for [u8; 32]`: if the buffer holds exactly 32
bytes, copy them out unchanged; otherwise `Err` with the fixed message. -/
def Base64.tryIntoArr32 (v : Base64) : Except String (List Nat) :=
  if v.bytes.length = 32 then .ok v.bytes else .error lengthErrMsg

/-- Model of serde_json's rendering of a scalar string whose content
needs no escaping (true of every base64 alphabet char): the content
between two quote chars. -/
def jsonQuote (s : List Char) : List Char := '"' :: (s ++ ['"'])

/-! ## Alphabet table facts -/

/-- The standard decode table inverts the standard encode table. -/
theorem decTable_encTable_std : ∀ n, n < 64 → decTable stdAlpha (encTable stdAlpha n) = some n := by
  decide

/-- The URL-safe decode table inverts the URL-safe encode table. -/
theorem decTable_encTable_url : ∀ n, n < 64 → decTable urlAlpha (encTable urlAlpha n) = some n := by
  decide

/-- No standard-alphabet symbol is the pad char. -/
theorem encTable_ne_pad_std : ∀ n, n < 64 → encTable stdAlpha n ≠ '=' := by
  decide

/-- No URL-safe-alphabet symbol is the pad char. -/
theorem encTable_ne_pad_url : ∀ n, n < 64 → encTable urlAlpha n ≠ '=' := by
  decide

/-! ## Sextet-level roundtrip -/

/-- Every symbol the encoder emits is a 6-bit value. -/
theorem toSextets_lt (b : List Nat) (hb : ∀ x ∈ b, x < 256) : ∀ y ∈ toSextets b, y < 64 := by
  induction b using toSextets.induct with
  | case1 => simp [toSextets]
  | case2 b1 =>
    have h1 : b1 < 256 := hb b1 (by simp)
    simp only [toSextets, List.mem_cons, List.not_mem_nil, or_false]
    rintro y (rfl | rfl) <;> omega
  | case3 b1 b2 =>
    have h1 : b1 < 256 := hb b1 (by simp)
    have h2 : b2 < 256 := hb b2 (by simp)
    simp only [toSextets, List.mem_cons, List.not_mem_nil, or_false]
    rintro y (rfl | rfl | rfl) <;> omega
  | case4 b1 b2 b3 rest ih =>
    have h1 : b1 < 256 := hb b1 (by simp)
    have h2 : b2 < 256 := hb b2 (by simp)
    have h3 : b3 < 256 := hb b3 (by simp)
    have ih2 := ih (fun x hx => hb x (by simp [hx]))
    simp only [toSextets, List.mem_cons]
    rintro y (rfl | rfl | rfl | rfl | hy)
    · omega
    · omega
    · omega
    · omega
    · exact ih2 y hy

/-- Reassembling the encoder's symbols recovers the original bytes. -/
theorem decodeBody_toSextets (b : List Nat) (hb : ∀ x ∈ b, x < 256) :
    decodeBody (toSextets b) = .ok b := by
  induction b using toSextets.induct with
  | case1 => rfl
  | case2 b1 =>
    have h1 : b1 < 256 := hb b1 (by simp)
    show decodeBody [b1 / 4, b1 % 4 * 16] = .ok [b1]
    rw [decodeBody, if_pos (by omega)]
    have : b1 / 4 * 4 + b1 % 4 * 16 / 16 = b1 := by omega
    rw [this]
  | case3 b1 b2 =>
    have h1 : b1 < 256 := hb b1 (by simp)
    have h2 : b2 < 256 := hb b2 (by simp)
    show decodeBody [b1 / 4, b1 % 4 * 16 + b2 / 16, b2 % 16 * 4] = .ok [b1, b2]
    rw [decodeBody, if_pos (by omega)]
    have e1 : b1 / 4 * 4 + (b1 % 4 * 16 + b2 / 16) / 16 = b1 := by omega
    have e2 : (b1 % 4 * 16 + b2 / 16) % 16 * 16 + b2 % 16 * 4 / 4 = b2 := by omega
    rw [e1, e2]
  | case4 b1 b2 b3 rest ih =>
    have h1 : b1 < 256 := hb b1 (by simp)
    have h2 : b2 < 256 := hb b2 (by simp)
    have h3 : b3 < 256 := hb b3 (by simp)
    have ih2 := ih (fun x hx => hb x (by simp [hx]))
    show decodeBody (b1 / 4 :: (b1 % 4 * 16 + b2 / 16) :: (b2 % 16 * 4 + b3 / 64) ::
        b3 % 64 :: toSextets rest) = .ok (b1 :: b2 :: b3 :: rest)
    rw [decodeBody, ih2]
    have e1 : b1 / 4 * 4 + (b1 % 4 * 16 + b2 / 16) / 16 = b1 := by omega
    have e2 : (b1 % 4 * 16 + b2 / 16) % 16 * 16 + (b2 % 16 * 4 + b3 / 64) / 4 = b2 := by omega
    have e3 : (b2 % 16 * 4 + b3 / 64) % 4 * 64 + b3 % 64 = b3 := by omega
    rw [e1, e2, e3]

/-- The symbol-count residue mod 4 determines the canonical pad length:
residue 0 needs no pad, residue 2 needs two pads, residue 3 needs one. -/
theorem toSextets_length_padLen (b : List Nat) :
    ((toSextets b).length % 4 = 0 ∧ padLenFor b.length = 0) ∨
    ((toSextets b).length % 4 = 2 ∧ padLenFor b.length = 2) ∨
    ((toSextets b).length % 4 = 3 ∧ padLenFor b.length = 1) := by
  induction b using toSextets.induct with
  | case1 => left; exact ⟨rfl, rfl⟩
  | case2 b1 => right; left; exact ⟨rfl, rfl⟩
  | case3 b1 b2 => right; right; exact ⟨rfl, rfl⟩
  | case4 b1 b2 b3 rest ih =>
    have hlen : (toSextets (b1 :: b2 :: b3 :: rest)).length = (toSextets rest).length + 4 := by
      simp [toSextets]
    have hmod3 : (b1 :: b2 :: b3 :: rest).length % 3 = rest.length % 3 := by
      simp [List.length_cons]; omega
    have hpad : padLenFor (b1 :: b2 :: b3 :: rest).length = padLenFor rest.length := by
      unfold padLenFor
      rw [hmod3]
    rw [hlen, hpad]
    rcases ih with ⟨h1, h2⟩ | ⟨h1, h2⟩ | ⟨h1, h2⟩
    · left; exact ⟨by omega, h2⟩
    · right; left; exact ⟨by omega, h2⟩
    · right; right; exact ⟨by omega, h2⟩

/-! ## Pad stripping -/

/-- Dropping pad-matching chars skips a leading pad run. -/
theorem dropWhile_replicate_pad (p : Char → Bool) (hp : p '=' = true) (k : Nat)
    (t : List Char) :
    (List.replicate k '=' ++ t).dropWhile p = t.dropWhile p := by
  induction k with
  | zero => simp
  | succ n ih => simp [List.replicate_succ, List.dropWhile_cons, hp, ih]

/-- Taking pad-matching chars collects a leading pad run. -/
theorem takeWhile_replicate_pad (p : Char → Bool) (hp : p '=' = true) (k : Nat)
    (t : List Char) :
    (List.replicate k '=' ++ t).takeWhile p = List.replicate k '=' ++ t.takeWhile p := by
  induction k with
  | zero => simp
  | succ n ih => simp [List.replicate_succ, List.takeWhile_cons, hp, ih]

/-- `dropWhile` is the identity when no element matches. -/
theorem dropWhile_eq_self_of (p : Char → Bool) (t : List Char)
    (h : ∀ c ∈ t, p c = false) : t.dropWhile p = t := by
  cases t with
  | nil => rfl
  | cons c cs => simp [List.dropWhile_cons, h c (by simp)]

/-- `takeWhile` is empty when no element matches. -/
theorem takeWhile_eq_nil_of (p : Char → Bool) (t : List Char)
    (h : ∀ c ∈ t, p c = false) : t.takeWhile p = [] := by
  cases t with
  | nil => rfl
  | cons c cs => simp [List.takeWhile_cons, h c (by simp)]

/-- A pad-free prefix followed by `k` pads has pad count `k`. -/
theorem padCount_append_pad (xs : List Char) (k : Nat) (h : '=' ∉ xs) :
    padCount (xs ++ List.replicate k '=') = k := by
  have hmem : ∀ c ∈ xs.reverse, (c == '=') = false := by
    intro c hc
    have : c ≠ '=' := fun he => h (he ▸ List.mem_reverse.1 hc)
    simpa using this
  unfold padCount
  rw [List.reverse_append, List.reverse_replicate,
    takeWhile_replicate_pad _ rfl, takeWhile_eq_nil_of _ _ hmem]
  simp

/-- Stripping pads from a pad-free prefix followed by pads returns the prefix. -/
theorem stripPad_append_pad (xs : List Char) (k : Nat) (h : '=' ∉ xs) :
    stripPad (xs ++ List.replicate k '=') = xs := by
  have hmem : ∀ c ∈ xs.reverse, (c == '=') = false := by
    intro c hc
    have : c ≠ '=' := fun he => h (he ▸ List.mem_reverse.1 hc)
    simpa using this
  unfold stripPad
  rw [List.reverse_append, List.reverse_replicate,
    dropWhile_replicate_pad _ rfl, dropWhile_eq_self_of _ _ hmem, List.reverse_reverse]

/-- Every input splits as its pad-stripped body followed by its pad run. -/
theorem eq_stripPad_append (s : List Char) :
    s = stripPad s ++ List.replicate (padCount s) '=' := by
  have hT : s.reverse.takeWhile (fun c => c == '=') =
      List.replicate (padCount s) '=' := by
    have hall : ∀ c ∈ s.reverse.takeWhile (fun c => c == '='), c = '=' := by
      intro c hc
      simpa using List.mem_takeWhile_imp hc
    exact List.eq_replicate_of_mem hall
  calc s = s.reverse.reverse := (List.reverse_reverse s).symm
    _ = (s.reverse.takeWhile (fun c => c == '=') ++
          s.reverse.dropWhile (fun c => c == '=')).reverse := by
        rw [List.takeWhile_append_dropWhile]
    _ = stripPad s ++ List.replicate (padCount s) '=' := by
        rw [List.reverse_append, hT, List.reverse_replicate]
        rfl

/-- A non-pad char of the input survives pad stripping. -/
theorem mem_stripPad_of_ne (s : List Char) (c : Char) (hc : c ∈ s) (hne : c ≠ '=') :
    c ∈ stripPad s := by
  have h := eq_stripPad_append s
  rw [h, List.mem_append] at hc
  rcases hc with h1 | h1
  · exact h1
  · exact absurd (List.eq_of_mem_replicate h1) hne

/-! ## Symbol decoding -/

/-- Decoding the alphabet image of 6-bit values recovers the values, for
any alphabet whose decode table inverts its encode table. -/
theorem decodeSyms_map_encTable (a : Alpha)
    (hgood : ∀ n, n < 64 → decTable a (encTable a n) = some n) :
    ∀ l : List Nat, (∀ x ∈ l, x < 64) → decodeSyms a (l.map (encTable a)) = some l := by
  intro l
  induction l with
  | nil => intro _; rfl
  | cons x xs ih =>
    intro h
    have hx := hgood x (h x (by simp))
    have hxs := ih fun y hy => h y (by simp [hy])
    simp [decodeSyms, hx, hxs]

/-- One char outside the alphabet makes symbol decoding fail. -/
theorem decodeSyms_eq_none (a : Alpha) (l : List Char) (c : Char)
    (hc : c ∈ l) (hd : decTable a c = none) : decodeSyms a l = none := by
  induction l with
  | nil => cases hc
  | cons x xs ih =>
    rcases List.mem_cons.1 hc with rfl | h
    · simp [decodeSyms, hd]
    · cases hdx : decTable a x <;> simp [decodeSyms, hdx, ih h]

/-! ## Engine-level roundtrip and padding indifference -/

/-- Decoding a pad-free symbol string followed by an allowed pad run
decodes the symbols. -/
theorem decodeB64_append_pad (a : Alpha) (body : List Char) (sx bs : List Nat)
    (k : Nat) (hnp : '=' ∉ body)
    (h1 : decodeSyms a body = some sx) (h2 : decodeBody sx = .ok bs)
    (hk : k = 0 ∨ (body.length % 4 = 2 ∧ k ≤ 2) ∨ (body.length % 4 = 3 ∧ k = 1)) :
    decodeB64 a (body ++ List.replicate k '=') = .ok bs := by
  unfold decodeB64
  rw [padCount_append_pad _ _ hnp, stripPad_append_pad _ _ hnp, h1]
  show (if k = 0 ∨ (body.length % 4 = 2 ∧ k ≤ 2) ∨ (body.length % 4 = 3 ∧ k = 1) then
      decodeBody sx else Except.error DecodeError.invalidByte) = Except.ok bs
  rw [if_pos hk, h2]

/-- Decode inverts encode, for any alphabet whose decode table inverts
its encode table and whose symbols avoid the pad char. -/
theorem decodeB64_encodeB64 (a : Alpha)
    (hgood : ∀ n, n < 64 → decTable a (encTable a n) = some n)
    (hnp : ∀ n, n < 64 → encTable a n ≠ '=')
    (b : List Nat) (hb : ∀ x ∈ b, x < 256) :
    decodeB64 a (encodeB64 a b) = .ok b := by
  have hlt := toSextets_lt b hb
  have hxs : '=' ∉ (toSextets b).map (encTable a) := by
    intro hmem
    rcases List.mem_map.1 hmem with ⟨y, hy, hey⟩
    exact hnp y (hlt y hy) hey
  have hsyms : decodeSyms a ((toSextets b).map (encTable a)) = some (toSextets b) :=
    decodeSyms_map_encTable a hgood _ hlt
  have hk : padLenFor b.length = 0 ∨
      (((toSextets b).map (encTable a)).length % 4 = 2 ∧ padLenFor b.length ≤ 2) ∨
      (((toSextets b).map (encTable a)).length % 4 = 3 ∧ padLenFor b.length = 1) := by
    rw [List.length_map]
    rcases toSextets_length_padLen b with ⟨m1, m2⟩ | ⟨m1, m2⟩ | ⟨m1, m2⟩
    · left; exact m2
    · right; left; exact ⟨m1, by omega⟩
    · right; right; exact ⟨m1, m2⟩
  exact decodeB64_append_pad a _ _ b (padLenFor b.length) hxs hsyms
    (decodeBody_toSextets b hb) hk

/-! ## Claims -/

/-- C1: for every byte sequence `b` and each alphabet variant, the
to-display-string operation followed by the parse-from-string operation
yields back exactly `b`. For the standard type these are `Display` and
`FromStr`; the URL-safe variant's string operations are its engine's
encode/decode (`URL_SAFE_INDIFFERENT_PAD`), the same pair its serde
implementations call. -/
theorem c1_display_parse_roundtrip (b : List Nat) (hb : ∀ x ∈ b, x < 256) :
    Base64.fromStr (Base64.toDisplayString ⟨b⟩) = .ok ⟨b⟩ ∧
    decodeB64 urlAlpha (encodeB64 urlAlpha b) = .ok b := by
  constructor
  · show (decodeB64 stdAlpha (encodeB64 stdAlpha b)).map Base64.mk = .ok ⟨b⟩
    rw [decodeB64_encodeB64 stdAlpha decTable_encTable_std encTable_ne_pad_std b hb]
    rfl
  · exact decodeB64_encodeB64 urlAlpha decTable_encTable_url encTable_ne_pad_url b hb

/-- Witness for C1 at the bytes `[2, 99]`. -/
theorem c1_display_parse_roundtrip_witness :
    Base64.fromStr (Base64.toDisplayString ⟨[2, 99]⟩) = .ok ⟨[2, 99]⟩ ∧
    decodeB64 urlAlpha (encodeB64 urlAlpha [2, 99]) = .ok [2, 99] :=
  c1_display_parse_roundtrip [2, 99] (by decide)

/-- C2: for every value of either codec type, serializing to the scalar
string form and deserializing that form yields the value back. -/
theorem c2_serde_roundtrip (v : Base64) (u : UrlBase64)
    (hv : ∀ x ∈ v.bytes, x < 256) (hu : ∀ x ∈ u.bytes, x < 256) :
    Base64.deserialize (Base64.serialize v) = .ok v ∧
    UrlBase64.deserialize (UrlBase64.serialize u) = .ok u := by
  constructor
  · show (decodeB64 stdAlpha (encodeB64 stdAlpha v.bytes)).map Base64.mk = .ok v
    rw [decodeB64_encodeB64 stdAlpha decTable_encTable_std encTable_ne_pad_std v.bytes hv]
    rfl
  · show (decodeB64 urlAlpha (encodeB64 urlAlpha u.bytes)).map UrlBase64.mk = .ok u
    rw [decodeB64_encodeB64 urlAlpha decTable_encTable_url encTable_ne_pad_url u.bytes hu]
    rfl

/-- Witness for C2 at `Base64([2, 99])` and `UrlBase64([0])`. -/
theorem c2_serde_roundtrip_witness :
    Base64.deserialize (Base64.serialize ⟨[2, 99]⟩) = .ok ⟨[2, 99]⟩ ∧
    UrlBase64.deserialize (UrlBase64.serialize ⟨[0]⟩) = .ok ⟨[0]⟩ :=
  c2_serde_roundtrip ⟨[2, 99]⟩ ⟨[0]⟩ (by decide) (by decide)

/-- C3: for each alphabet, a payload of alphabet chars that resolves to
a well-formed byte grouping decodes to the same byte sequence with its
trailing `=` padding stripped and with any pad run the indifferent
policy allows (correct padding included), both decodes succeeding. -/
theorem c3_padding_indifference (a : Alpha) (body : List Char) (sx bs : List Nat)
    (k : Nat) (hnp : '=' ∉ body)
    (hsyms : decodeSyms a body = some sx)
    (hgrp : decodeBody sx = .ok bs)
    (hk : k = 0 ∨ (body.length % 4 = 2 ∧ k ≤ 2) ∨ (body.length % 4 = 3 ∧ k = 1)) :
    decodeB64 a (body ++ List.replicate k '=') = .ok bs ∧
    decodeB64 a body = .ok bs := by
  refine ⟨decodeB64_append_pad a body sx bs k hnp hsyms hgrp hk, ?_⟩
  have h0 := decodeB64_append_pad a body sx bs 0 hnp hsyms hgrp (Or.inl rfl)
  simpa using h0

/-- Witness for C3: `"AmM="` (correctly padded) and `"AmM"` (stripped)
both decode to `[2, 99]` under the standard alphabet. -/
theorem c3_padding_indifference_witness :
    decodeB64 stdAlpha ("AmM".toList ++ List.replicate 1 '=') = .ok [2, 99] ∧
    decodeB64 stdAlpha "AmM".toList = .ok [2, 99] :=
  c3_padding_indifference stdAlpha "AmM".toList [0, 38, 12] [2, 99] 1
    (by decide) rfl rfl (by decide)

/-- C4: converting the standard value wrapping any byte sequence to the
URL-safe type and back yields the original value; each conversion is a
total raw-byte move (no failure mode for any byte sequence). -/
theorem c4_cross_codec_roundtrip (b : List Nat) :
    (UrlBase64.fromBase64 ⟨b⟩).bytes = b ∧
    Base64.fromUrlBase64 (UrlBase64.fromBase64 ⟨b⟩) = (⟨b⟩ : Base64) :=
  ⟨rfl, rfl⟩

/-- C5: the 32-byte conversion succeeds, with output byte-identical to
the wrapped buffer, exactly when the buffer length is 32; any other
length (shorter or longer) produces the length error. -/
theorem c5_fixed_length_boundary (v : Base64) :
    (Base64.tryIntoArr32 v = .ok v.bytes ↔ v.bytes.length = 32) ∧
    (v.bytes.length ≠ 32 → Base64.tryIntoArr32 v = .error lengthErrMsg) := by
  unfold Base64.tryIntoArr32
  constructor
  · constructor
    · intro h
      by_contra hne
      rw [if_neg hne] at h
      exact Except.noConfusion h
    · intro h
      rw [if_pos h]
  · intro h
    rw [if_neg h]

/-- Witness for C5: a 32-byte value succeeds byte-identically; 12-byte
and 64-byte values (the repo's own boundary tests) fail. -/
theorem c5_fixed_length_boundary_witness :
    Base64.tryIntoArr32 ⟨List.replicate 32 7⟩ = .ok (List.replicate 32 7) ∧
    Base64.tryIntoArr32 ⟨List.replicate 12 0⟩ = .error lengthErrMsg ∧
    Base64.tryIntoArr32 ⟨List.replicate 64 0⟩ = .error lengthErrMsg :=
  ⟨(c5_fixed_length_boundary ⟨List.replicate 32 7⟩).1.mpr (by decide),
   (c5_fixed_length_boundary ⟨List.replicate 12 0⟩).2 (by decide),
   (c5_fixed_length_boundary ⟨List.replicate 64 0⟩).2 (by decide)⟩

/-- C6: any input containing a URL-safe-only char (`-` or `_`) fails to
decode under the standard-alphabet decoder (and its deserializer, as a
data error); symmetrically any input containing `+` or `/` fails under
the URL-safe decoder and deserializer. -/
theorem c6_alphabet_exclusivity (s t : List Char) (c d : Char)
    (hcs : c ∈ s) (hc : c = '-' ∨ c = '_')
    (hdt : d ∈ t) (hd : d = '+' ∨ d = '/') :
    decodeB64 stdAlpha s = .error .invalidByte ∧
    Base64.deserialize s = .error .invalidByte ∧
    decodeB64 urlAlpha t = .error .invalidByte ∧
    UrlBase64.deserialize t = .error .invalidByte := by
  have hcd : decTable stdAlpha c = none := by rcases hc with rfl | rfl <;> rfl
  have hcne : c ≠ '=' := by rcases hc with rfl | rfl <;> decide
  have hs : decodeSyms stdAlpha (stripPad s) = none :=
    decodeSyms_eq_none stdAlpha _ c (mem_stripPad_of_ne s c hcs hcne) hcd
  have hdd : decTable urlAlpha d = none := by rcases hd with rfl | rfl <;> rfl
  have hdne : d ≠ '=' := by rcases hd with rfl | rfl <;> decide
  have ht : decodeSyms urlAlpha (stripPad t) = none :=
    decodeSyms_eq_none urlAlpha _ d (mem_stripPad_of_ne t d hdt hdne) hdd
  refine ⟨?_, ?_, ?_, ?_⟩
  · unfold decodeB64
    rw [hs]
  · unfold Base64.deserialize decodeB64
    rw [hs]
    rfl
  · unfold decodeB64
    rw [ht]
  · unfold UrlBase64.deserialize decodeB64
    rw [ht]
    rfl

/-- Witness for C6 at the inputs `"-"` and `"+"`. -/
theorem c6_alphabet_exclusivity_witness :
    decodeB64 stdAlpha ['-'] = .error .invalidByte ∧
    Base64.deserialize ['-'] = .error .invalidByte ∧
    decodeB64 urlAlpha ['+'] = .error .invalidByte ∧
    UrlBase64.deserialize ['+'] = .error .invalidByte :=
  c6_alphabet_exclusivity ['-'] ['+'] '-' '+' (by decide) (Or.inl rfl)
    (by decide) (Or.inl rfl)

/-- C7 counterexample: the length error is one fixed message — the same
for a 12-byte and a 64-byte value — and it contains no digit `1`, so it
cannot carry the actual length (12) of the wrapped sequence. -/
theorem c7_counterexample :
    Base64.tryIntoArr32 ⟨List.replicate 12 0⟩ = .error lengthErrMsg ∧
    Base64.tryIntoArr32 ⟨List.replicate 64 0⟩ = .error lengthErrMsg ∧
    '1' ∉ lengthErrMsg.toList :=
  ⟨rfl, rfl, by decide⟩

/-- C7 amended: when the fixed-length conversion fails it returns the
one fixed descriptive message, which names the expected length (32) but
not the actual length. -/
theorem c7_error_context (v : Base64) (h : v.bytes.length ≠ 32) :
    Base64.tryIntoArr32 v = .error lengthErrMsg ∧
    List.IsInfix "32".toList lengthErrMsg.toList := by
  refine ⟨?_, ?_⟩
  · unfold Base64.tryIntoArr32
    rw [if_neg h]
  · exact ⟨"Base64 was not ".toList, " bytes of data.".toList, by decide⟩

/-- Witness for C7's amended statement at a 12-byte value. -/
theorem c7_error_context_witness :
    Base64.tryIntoArr32 ⟨List.replicate 12 0⟩ = .error lengthErrMsg ∧
    List.IsInfix "32".toList lengthErrMsg.toList :=
  c7_error_context ⟨List.replicate 12 0⟩ (by decide)

/-- C8 counterexample: `UrlBase64`'s derive list (line 133 of `lib.rs`)
contains neither `Hash` nor `Clone`, so the URL-safe type does not have
the claimed hashing and cloning. -/
theorem c8_counterexample :
    "Hash" ∉ UrlBase64.derivedTraits ∧ "Clone" ∉ UrlBase64.derivedTraits := by
  decide

/-- C8 amended: both types have value-based equality (equal exactly when
the wrapped bytes are equal); the standard type additionally derives
`Hash` and `Clone`, its hash input is determined exactly by the wrapped
bytes and cloning yields an equal value; the URL-safe type derives
equality and a zero-length default, but not `Hash` or `Clone`. -/
theorem c8_value_semantics :
    (∀ x y : Base64, x.beq y = true ↔ x.bytes = y.bytes) ∧
    (∀ x y : UrlBase64, x.beq y = true ↔ x.bytes = y.bytes) ∧
    (∀ x : Base64, x.clone = x) ∧
    (∀ x y : Base64, x.hashFeed = y.hashFeed ↔ x.bytes = y.bytes) ∧
    "Hash" ∈ Base64.derivedTraits ∧ "Clone" ∈ Base64.derivedTraits ∧
    "PartialEq" ∈ UrlBase64.derivedTraits ∧ "Default" ∈ UrlBase64.derivedTraits ∧
    UrlBase64.default.bytes = [] := by
  refine ⟨?_, ?_, fun x => rfl, ?_, by decide, by decide, by decide, by decide, rfl⟩
  · intro x y
    simp [Base64.beq]
  · intro x y
    simp [UrlBase64.beq]
  · intro x y
    simp only [Base64.hashFeed, List.cons.injEq]
    constructor
    · rintro ⟨_, h⟩
      exact h
    · intro h
      exact ⟨by rw [h], h⟩

/-- C9: the worked example — `[2, 99]` displays as `"AmM="`, `"AmM="`
parses back to `[2, 99]`, and the serialized JSON scalar is the quoted
string `"\"AmM=\""`. -/
theorem c9_worked_example :
    Base64.toDisplayString ⟨[2, 99]⟩ = "AmM=".toList ∧
    Base64.fromStr "AmM=".toList = .ok ⟨[2, 99]⟩ ∧
    jsonQuote (Base64.serialize ⟨[2, 99]⟩) = "\"AmM=\"".toList :=
  ⟨rfl, rfl, rfl⟩

/-- C10: parsing the empty string succeeds and yields the value wrapping
the zero-length byte sequence. -/
theorem c10_empty_parse : Base64.fromStr "".toList = .ok ⟨[]⟩ := rfl

end B64Spec
